import Mathlib

/-!
Shallow embedding of the block-play engine of IBAX-io/Go-IBAX
(packages/block/play.go): `PlaySafe`, `ProcessTxs`, `serialExecuteTxs`,
`groupUtxoTxs` and `groupTransferSelfTxs`.

External collaborators (the database, the contract VM `tx.Play()`, the
transaction layer, `syspar`, the node service) are modelled as oracles: each
transaction and each block carries `Option`-valued fields giving the result
that the corresponding external call returns during this run.  Externally
visible calls (savepoints, rollbacks, bans, mark-bad, commits, node pause)
are recorded in an event trace.

Parts of the engine that no verified property touches are abstracted: the
`OutputsMap` contents and the `UpdateTxInputs`/`InsertTxOutputs` mutations,
the per-block `Limits` counters and the per-transaction RNG seed (their
effects surface only through the `Play` oracle and the `ErrLimitStop`
sentinel), the bodies of `AfterPlayTxs` and `InsertIntoBlockchain` (only
their error results matter), and `AfterTxs.Rts`/`TxBinLogSql`.  Go map
iteration order, which is unspecified, is fixed to insertion order; the
parallel group fan-out is serialised, which the per-group lock in the
source enforces at the DB boundary anyway.
-/

set_option autoImplicit false

namespace IbaxBlock

/-- Transaction kinds (`types.StopNetworkTxType`, `types.FirstBlockTxType`,
`types.DelayTxType`, `types.TransferSelfTxType`, `types.UtxoTxType`,
`types.SmartContractTxType`). -/
inductive TxType where
  | stopNetwork
  | firstBlock
  | delay
  | transferSelf
  | utxo
  | smartContract
deriving DecidableEq, Repr

/-- Errors flowing through block play.  `networkStopping`, `limitStop` and
`vmTimeLimit` are the sentinels `transaction.ErrNetworkStopping`,
`transaction.ErrLimitStop` and `script.ErrVMTimeLimit`; `emptyBlock` is
`ErrEmptyBlock`.  `msg s v` is any other error whose text is `s`, with `v`
recording whether that text contains the VM time-limit signature (the
`strings.Contains(err.Error(), script.ErrVMTimeLimit.Error())` test).
`composite a b` is `fmt.Errorf("%v; %w", a, b)`. -/
inductive Err where
  | networkStopping
  | limitStop
  | vmTimeLimit
  | emptyBlock
  | msg (s : String) (vmSig : Bool)
  | composite (a b : Err)
deriving DecidableEq, Repr

/-- The `err.Error()` text of an error value. -/
def Err.errorString : Err → String
  | .networkStopping => "network is stopping"
  | .limitStop => "limit stop"
  | .vmTimeLimit => "time limit exceeded"
  | .emptyBlock => "empty block"
  | .msg s _ => s
  | .composite a b => a.errorString ++ "; " ++ b.errorString

/-- Whether `err.Error()` contains `script.ErrVMTimeLimit.Error()`. -/
def Err.containsVMSig : Err → Bool
  | .vmTimeLimit => true
  | .msg _ v => v
  | .composite a b => a.containsVMSig || b.containsVMSig
  | _ => false

/-- A parsed transaction together with the outcomes of the external calls made
on its behalf during this run.  `hash` abstracts `t.Hash()`, `fullData`
abstracts `t.FullData`, `toID` is `t.SmartContract().TxSmart.UTXO.ToID`,
`isSC` is `t.IsSmartContract()`.  `playResult` is what `t.Play()` returns
(`none` = success); `savepointErr`, `withOptionErr`, `rollbackSpErr`,
`sysparUpdateErr`, `markBadErr` and `unmarshalErr` are the results of
`dbTx.Savepoint`, `t.WithOption`, `RollbackSavepoint`, `syspar.SysUpdate`,
`transaction.MarkTransactionBad` and `transaction.UnmarshallTransaction`.
`sysUpdate` is the value of `t.SysUpdate` observed after `t.Play()` ran, and
`notifSize` the value of `t.Notifications.Size()`. -/
structure Tx where
  hash : Nat
  keyID : Int
  toID : Int
  txType : TxType
  isSC : Bool
  fullData : Nat
  playResult : Option Err
  savepointErr : Option String
  withOptionErr : Option String
  rollbackSpErr : Option String
  sysUpdate : Bool
  sysparUpdateErr : Option String
  notifSize : Nat
  markBadErr : Option String
  unmarshalErr : Option String
deriving DecidableEq, Repr

/-- Externally visible calls recorded during a run. -/
inductive Ev where
  | savepoint (h : Nat)
  | rollbackSavepoint (h : Nat)
  | pauseNode
  | banKey (k : Int)
  | markBad (h : Nat) (s : String)
  | sysparUpdate
  | rollbackOuter
  | commitOuter
  | insertChain
deriving DecidableEq, Repr

/-- Mutable state shared by the executor invocations of one block play:
the event trace, `afters.Txs` (by transaction hash), `processedTx` (raw tx
data), `b.Notifications` (queues, by transaction hash) and `b.SysUpdate`. -/
structure ExecSt where
  trace : List Ev
  aftersTxs : List Nat
  processedTx : List Nat
  notifications : List Nat
  sysUpdate : Bool
deriving DecidableEq, Repr

/-- Outcome of one iteration of the loop body of `serialExecuteTxs`:
return from the whole function with an error, break out of the loop, or
proceed to the next transaction. -/
inductive StepOut where
  | ret (e : Err)
  | brk
  | next
deriving DecidableEq, Repr

/-- One iteration of the transaction loop of `serialExecuteTxs`
(play.go 245-336).  `genBErr` is the local `genBErr` parameter; the returned
`Option Err` is its updated value. -/
def execTx (genBlock : Bool) (curTx : Nat) (t : Tx) (st : ExecSt)
    (genBErr : Option Err) : ExecSt × Option Err × StepOut :=
  let st := { st with trace := st.trace ++ [Ev.savepoint t.hash] }
  match t.savepointErr with
  | some m => (st, genBErr, .ret (.msg m false))
  | none =>
    match t.withOptionErr with
    | some m => (st, genBErr, .ret (.msg m false))
    | none =>
      match t.playResult with
      | none =>
        let st := if t.sysUpdate then { st with sysUpdate := true } else st
        let st := if t.notifSize > 0 then
            { st with notifications := st.notifications ++ [t.hash] } else st
        let st := { st with aftersTxs := st.aftersTxs ++ [t.hash],
                            processedTx := st.processedTx ++ [t.fullData] }
        (st, genBErr, .next)
      | some e =>
        if e = .networkStopping then
          ({ st with trace := st.trace ++ [Ev.pauseNode] }, genBErr, .ret e)
        else
          let st := { st with trace := st.trace ++ [Ev.rollbackSavepoint t.hash] }
          match t.rollbackSpErr with
          | some m => (st, genBErr, .ret (.composite e (.msg m false)))
          | none =>
            if genBlock ∧ e = .limitStop then
              if curTx = 0 then (st, genBErr, .ret e) else (st, genBErr, .brk)
            else
              let e2 := if genBlock ∧ e.containsVMSig then Err.vmTimeLimit else e
              let st := if t.isSC then
                  { st with trace := st.trace ++ [Ev.banKey t.keyID] } else st
              let st := { st with trace := st.trace ++ [Ev.markBad t.hash e2.errorString] }
              if t.sysUpdate then
                let st := { st with trace := st.trace ++ [Ev.sysparUpdate] }
                match t.sysparUpdateErr with
                | some m => (st, genBErr, .ret (.msg ("updating syspar: " ++ m) false))
                | none =>
                  if genBlock then (st, some e2, .next) else (st, genBErr, .ret e2)
              else
                if genBlock then (st, some e2, .next) else (st, genBErr, .ret e2)

/-- The transaction loop of `serialExecuteTxs`.  Returns the shared state, the
final value of the local `genBErr` parameter, and the returned error. -/
def serialExecuteTxsLoop (genBlock : Bool) (curTx : Nat) (txs : List Tx)
    (st : ExecSt) (genBErr : Option Err) : ExecSt × Option Err × Option Err :=
  match txs with
  | [] => (st, genBErr, none)
  | t :: rest =>
    let r := execTx genBlock curTx t st genBErr
    match r.2.2 with
    | .ret e => (r.1, r.2.1, some e)
    | .brk => (r.1, r.2.1, none)
    | .next => serialExecuteTxsLoop genBlock (curTx + 1) rest r.1 r.2.1

/-- Embeds `serialExecuteTxs` (play.go 241-339).  The `genBErr` argument is
passed by value in Go: its final value (second component of the result) is
never observed by any caller. -/
def serialExecuteTxs (genBlock : Bool) (txs : List Tx) (st : ExecSt)
    (genBErr : Option Err) : ExecSt × Option Err × Option Err :=
  serialExecuteTxsLoop genBlock 0 txs st genBErr

/-! ## Grouper

`groupUtxoTxs` and `groupTransferSelfTxs` (play.go 348-393 and 401-444) are
identical except for which accounts a transaction contributes: the UTXO
grouper uses `KeyID` and `TxSmart.UTXO.ToID`, the transfer-self grouper uses
`KeyID` only.  They are embedded as one function `groupTxsF` parametrised by
the account projection.  The Go `walletAddress` map always stores `k ↦ k`, so
it is modelled as the list of its keys; `waLookup` reproduces the
zero-default lookup of a Go map. -/

/-- Lookup in `walletAddress`: a Go map access returns `0` for a missing key,
and the stored value is always the key itself. -/
def waLookup (wa : List Int) (k : Int) : Int :=
  if k ∈ wa then k else 0

/-- The map assignment `walletAddress[k] = k`. -/
def waInsert (wa : List Int) (k : Int) : List Int :=
  if k ∈ wa then wa else wa ++ [k]

/-- Assign all of a transaction's accounts into `walletAddress`. -/
def waInsertAcc (wa : List Int) (accts : List Int) : List Int :=
  accts.foldl waInsert wa

/-- The matching test of the sweep loop:
`walletAddress[a] != 0` for some account `a` of the transaction. -/
def txMatches (accts : Tx → List Int) (wa : List Int) (t : Tx) : Bool :=
  (accts t).any fun a => decide (waLookup wa a ≠ 0)

/-- The sweep over the remaining transactions inside the `for` loop of the
grouper: a matching transaction is appended to the current group (and its
accounts to `walletAddress`, reproducing the in-place delete with `i--`),
a non-matching one is kept in the remainder. -/
def sweepTxs (accts : Tx → List Int) (wa : List Int) (group rem txs : List Tx) :
    List Int × List Tx × List Tx :=
  match txs with
  | [] => (wa, group, rem)
  | t :: rest =>
    if txMatches accts wa t then
      sweepTxs accts (waInsertAcc wa (accts t)) (group ++ [t]) rem rest
    else
      sweepTxs accts wa group (rem ++ [t]) rest

/-- One full pass of the grouper's `for` loop.  `len(walletAddress) == 0` can
only hold at the first iteration (every branch of the loop body leaves the
map nonempty), so the seeding step is taken at most once, at the head. -/
def onePass (accts : Tx → List Int) (wa : List Int) (group txs : List Tx) :
    List Int × List Tx × List Tx :=
  match txs with
  | [] => (wa, group, [])
  | t :: rest =>
    if wa.length = 0 then
      sweepTxs accts (waInsertAcc wa (accts t)) (group ++ [t]) [] rest
    else
      sweepTxs accts wa group [] (t :: rest)

/-- The grouper's module-level state: the group map (keyed by the decimal
string of the `uint16` serial, modelled by the serial number itself), the
current group list, and the serial. -/
structure GroupSt where
  groupMap : List (Nat × List Tx)
  groupList : List Tx
  serial : Nat
deriving DecidableEq, Repr

/-- Assignment into the Go group map (overwrites an existing key). -/
def mapSet (m : List (Nat × List Tx)) (k : Nat) (v : List Tx) :
    List (Nat × List Tx) :=
  match m with
  | [] => [(k, v)]
  | p :: rest => if p.1 = k then (k, v) :: rest else p :: mapSet rest k v

/-- The recursive body shared by `groupUtxoTxs` and `groupTransferSelfTxs`
(play.go 348-393 / 401-444).  The fuel argument only bounds the recursion
depth so that the definition reduces in the kernel; each recursive call
strictly decreases the measure `2 * txs.length + (if wa = [] then 1 else 2)`,
so fuel `2 * txs.length + 2` is never exhausted from the entry points below.
The branch where the pass added nothing and the current group list is empty
is unreachable from the entry points (it requires a nonempty `walletAddress`
with an empty current group); the Go code would recurse forever there. -/
def groupTxsF (accts : Tx → List Int) :
    Nat → List Tx → List Int → GroupSt → GroupSt
  | 0, _, _, st => st
  | _ + 1, [], _, st => st
  | fuel + 1, t :: rest, wa, st =>
    let p := onePass accts wa st.groupList (t :: rest)
    if st.groupList.length < p.2.1.length then
      if p.2.2 = [] then
        { st with groupMap := mapSet st.groupMap st.serial p.2.1,
                  groupList := p.2.1 }
      else
        groupTxsF accts fuel p.2.2 p.1 { st with groupList := p.2.1 }
    else
      if st.groupList.length > 0 then
        groupTxsF accts fuel (t :: rest) []
          { groupMap := mapSet st.groupMap st.serial st.groupList,
            groupList := [],
            serial := (st.serial + 1) % 65536 }
      else
        st

/-- Accounts of a UTXO transaction: sender `KeyID` and `UTXO.ToID`,
assigned in that order. -/
def utxoAccts (t : Tx) : List Int := [t.keyID, t.toID]

/-- Account of a transfer-self transaction: the sender `KeyID`. -/
def selfAccts (t : Tx) : List Int := [t.keyID]

/-- Initial grouper state: empty map, empty current group, serial 1. -/
def initGroupSt : GroupSt := { groupMap := [], groupList := [], serial := 1 }

/-- Embeds `groupUtxoTxs` (play.go 348-393) as called from `ProcessTxs` with
a fresh `walletAddress` and freshly reset module-level state. -/
def groupUtxoTxs (txs : List Tx) : List (Nat × List Tx) :=
  (groupTxsF utxoAccts (2 * txs.length + 2) txs [] initGroupSt).groupMap

/-- Embeds `groupTransferSelfTxs` (play.go 401-444) as called from
`ProcessTxs` with fresh state. -/
def groupTransferSelfTxs (txs : List Tx) : List (Nat × List Tx) :=
  (groupTxsF selfAccts (2 * txs.length + 2) txs [] initGroupSt).groupMap

/-! ## ProcessTxs -/

/-- A block together with the outcomes of the external calls made during its
play.  `transactions` is `b.Transactions` in block order (already in parsed
view; raw bytes are abstracted by the `Tx` fields).  `b.ClassifyTxsMap` is
modelled as holding, for each kind, the raw bytes of the block's
transactions of that kind in block order.  `sqldml` is
`conf.Config.BlockSyncMethod.Method == BlockSyncMethod_SQLDML`;
`sysUpdate` is `b.SysUpdate` on entry.  The `...Err` fields are the results
of `sqldb.StartTransaction`, `sqldb.GetTxOutputs`, `syspar.SysUpdate` (in
the SQL-DML branch), `b.AfterPlayTxs`, `b.InsertIntoBlockchain` and
`dbTx.Commit`. -/
structure Block where
  genBlock : Bool
  isGenesis : Bool
  sqldml : Bool
  sysUpdate : Bool
  transactions : List Tx
  startTxErr : Option String
  getTxOutputsErr : Option String
  sysparUpdateErrB : Option String
  afterPlayErr : Option String
  insertChainErr : Option String
  commitErr : Option String
deriving DecidableEq, Repr

/-- The block's transactions of one kind, in block order. -/
def ofType (b : Block) (ty : TxType) : List Tx :=
  b.transactions.filter fun t => t.txType == ty

/-- The transactions of a list whose unmarshalling succeeds. -/
def parsedOk (txs : List Tx) : List Tx :=
  txs.filter fun t => t.unmarshalErr == none

/-- The `MarkTransactionBad` calls made for unmarshalling failures while
building `txsMap` (play.go 87-101). -/
def unmarshalEvents (txs : List Tx) : List Ev :=
  txs.filterMap fun t =>
    match t.unmarshalErr with
    | some m => some (Ev.markBad t.hash m)
    | none => none

/-- Fixed iteration order chosen for the map ranged over in play.go 87;
Go map iteration order is unspecified. -/
def typeOrder : List TxType :=
  [.stopNetwork, .firstBlock, .delay, .transferSelf, .utxo, .smartContract]

/-- All mark-bad events of the `txsMap` construction loop. -/
def classifyEvents (b : Block) : List Ev :=
  (typeOrder.map fun ty => unmarshalEvents (ofType b ty)).flatten

/-- A serially dispatched phase (play.go 149-156 / 179-186): run
`serialExecuteTxs` when the kind's list is nonempty and propagate its
returned error.  The caller's `genBErr` (always `nil`) is passed by value
and its final value discarded. -/
def phaseSerial (genBlock : Bool) (txs : List Tx) (st : ExecSt) :
    ExecSt × Option Err :=
  if txs.isEmpty then (st, none)
  else
    let r := serialExecuteTxs genBlock txs st none
    (r.1, r.2.2)

/-- The genesis re-parsing loop (play.go 160-170): on the first failing
transaction, mark it bad and fail; otherwise collect the parsed list. -/
def genesisParse (txs : List Tx) : List Ev × Option String × List Tx :=
  match txs with
  | [] => ([], none, [])
  | t :: rest =>
    match t.unmarshalErr with
    | some m => ([Ev.markBad t.hash m], some m, [])
    | none =>
      let r := genesisParse rest
      (r.1, r.2.1, t :: r.2.2)

/-- The genesis phase (play.go 159-176). -/
def phaseGenesis (b : Block) (st : ExecSt) : ExecSt × Option Err :=
  let g := genesisParse b.transactions
  let st := { st with trace := st.trace ++ g.1 }
  match g.2.1 with
  | some m => (st, some (Err.msg ("parse transaction error(" ++ m ++ ")") false))
  | none =>
    let r := serialExecuteTxs b.genBlock g.2.2 st none
    (r.1, r.2.2)

/-- Run the account-disjoint groups of a parallel phase (play.go 194-204 /
220-229).  Each goroutine body takes the shared lock for its whole group, so
the executor invocations are serialised; the iteration order over the Go map
is unspecified and modelled as the map list order.  The error returned by
`serialExecuteTxs` is discarded inside the goroutine (`if err != nil
{ return }`), as is the final value of the by-value `genBErr` argument. -/
def runGroups (genBlock : Bool) (groups : List (Nat × List Tx)) (st : ExecSt) :
    ExecSt :=
  match groups with
  | [] => st
  | g :: rest =>
    let r := serialExecuteTxs genBlock g.2 st none
    runGroups genBlock rest r.1

/-- The body of `ProcessTxs` between the deferred block and `return`
(play.go 125-238). -/
def processTxsBody (b : Block) (st : ExecSt) : ExecSt × Option Err :=
  if ¬b.genBlock ∧ ¬b.isGenesis ∧ b.sqldml then
    if b.sysUpdate then
      let st := { st with trace := st.trace ++ [Ev.sysparUpdate] }
      match b.sysparUpdateErrB with
      | some m => (st, some (Err.msg ("updating syspar: " ++ m) false))
      | none => (st, none)
    else (st, none)
  else
    match b.getTxOutputsErr with
    | some m => (st, some (Err.msg m false))
    | none =>
      let r1 := phaseSerial b.genBlock (parsedOk (ofType b .stopNetwork)) st
      if r1.2 ≠ none then r1
      else
        let r2 := if b.isGenesis then phaseGenesis b r1.1 else (r1.1, none)
        if r2.2 ≠ none then r2
        else
          let r3 := phaseSerial b.genBlock (parsedOk (ofType b .delay)) r2.1
          if r3.2 ≠ none then r3
          else
            let ts := parsedOk (ofType b .transferSelf)
            let st4 := if ts.length > 0 then
                runGroups b.genBlock (groupTransferSelfTxs ts) r3.1
              else r3.1
            let u := parsedOk (ofType b .utxo)
            let sc := parsedOk (ofType b .smartContract)
            let st5 := if u.length > 0 ∨ sc.length > 0 then
                let gm := groupUtxoTxs u
                let gm := if sc.length > 0 then mapSet gm 0 sc else gm
                runGroups b.genBlock gm st4
              else st4
            (st5, none)

/-- Result of `ProcessTxs`: the shared state, `b.AfterTxs` (set only for
genesis or generation blocks), `b.TxFullData` (set only in generation mode)
and the returned error. -/
structure ProcOut where
  st : ExecSt
  afterTxs : Option (List Nat)
  txFullData : List Nat
  err : Option Err
deriving DecidableEq, Repr

/-- Embeds `ProcessTxs` (play.go 80-239) including its deferred block.
`genBErr` is the variable declared at play.go 105: it is passed to
`serialExecuteTxs` by value, so no assignment made inside the executor ever
reaches it, and it is still `nil` when the deferred block tests it. -/
def ProcessTxs (b : Block) : ProcOut :=
  let st0 : ExecSt := { trace := classifyEvents b, aftersTxs := [],
                        processedTx := [], notifications := [],
                        sysUpdate := b.sysUpdate }
  let r := processTxsBody b st0
  let afterTxs := if b.isGenesis ∨ b.genBlock then some r.1.aftersTxs else none
  let txFullData := if b.genBlock then r.1.processedTx else []
  let genBErr : Option Err := none
  let e := match genBErr with
    | some g => some g
    | none => r.2
  match b.afterPlayErr with
  | some m =>
    { st := r.1, afterTxs := afterTxs, txFullData := txFullData,
      err := some (match e with
        | none => Err.msg m false
        | some e0 => Err.composite e0 (.msg m false)) }
  | none =>
    { st := r.1, afterTxs := afterTxs, txFullData := txFullData, err := e }

/-! ## PlaySafe -/

/-- The rejection loop run by `PlaySafe` when generation failed with an empty
accepted set (play.go 45-57).  `banK` is the set of already-banned senders
(keyed in Go by the decimal string of the key id).  The first smart-contract
transaction of each not-yet-banned sender is banned and — because of the
`continue` — not marked bad; every other transaction is marked bad with the
text of the processing error.  A failing `MarkTransactionBad` aborts the
loop and its error is returned. -/
def banPass (e : Err) (txs : List Tx) (banK : List Int) (tr : List Ev) :
    List Ev × Option Err :=
  match txs with
  | [] => (tr, some e)
  | t :: rest =>
    if ¬t.keyID ∈ banK ∧ t.isSC then
      banPass e rest (banK ++ [t.keyID]) (tr ++ [Ev.banKey t.keyID])
    else
      match t.markBadErr with
      | some m => (tr ++ [Ev.markBad t.hash e.errorString], some (.msg m false))
      | none => banPass e rest banK (tr ++ [Ev.markBad t.hash e.errorString])

/-- Result of `PlaySafe`: the event trace, the notification queues actually
dispatched after a successful commit, and the returned error. -/
structure PlayOut where
  trace : List Ev
  sent : List Nat
  err : Option Err
deriving DecidableEq, Repr

/-- Embeds `PlaySafe` (play.go 32-78).  The commit of the empty-generation
branch (play.go 62) discards the commit error; a `commitOuter` event is
recorded when the commit call succeeds. -/
def PlaySafe (b : Block) : PlayOut :=
  match b.startTxErr with
  | some m => { trace := [], sent := [], err := some (.msg m false) }
  | none =>
    let inputTx := b.transactions
    let p := ProcessTxs b
    match p.err with
    | some e =>
      let tr := p.st.trace ++ [Ev.rollbackOuter]
      if b.genBlock ∧ p.txFullData = [] then
        let r := banPass e inputTx [] tr
        { trace := r.1, sent := [], err := r.2 }
      else
        { trace := tr, sent := [], err := some e }
    | none =>
      if b.genBlock ∧ p.txFullData = [] then
        let tr := p.st.trace ++
          (match b.commitErr with | none => [Ev.commitOuter] | some _ => [])
        { trace := tr, sent := [], err := some .emptyBlock }
      else
        match b.insertChainErr with
        | some m =>
          { trace := p.st.trace ++ [Ev.insertChain, Ev.rollbackOuter],
            sent := [], err := some (.msg m false) }
        | none =>
          match b.commitErr with
          | some m =>
            { trace := p.st.trace ++ [Ev.insertChain], sent := [],
              err := some (.msg m false) }
          | none =>
            { trace := p.st.trace ++ [Ev.insertChain, Ev.commitOuter],
              sent := p.st.notifications, err := none }

/-! ## Definitions used to state the claims -/

/-- The multiset of accounts of a group of transactions, under an account
projection (`utxoAccts` or `selfAccts`). -/
def txAccounts (accts : Tx → List Int) (g : List Tx) : List Int :=
  (g.map accts).flatten

/-- Two account lists are disjoint. -/
def disjAcc (xs ys : List Int) : Prop :=
  ∀ a, a ∈ xs → a ∈ ys → False

/-- Two account lists share at most the account id 0. -/
def disjAcc0 (xs ys : List Int) : Prop :=
  ∀ a, a ∈ xs → a ∈ ys → a = 0

/-- Decides whether `l₁` is an order-preserving subsequence of `l₂`
("the relative order of `l₁`'s elements equals their order in `l₂`"). -/
def sublistB {α : Type} [DecidableEq α] : List α → List α → Bool
  | [], _ => true
  | _ :: _, [] => false
  | a :: as, b :: bs => if a = b then sublistB as bs else sublistB (a :: as) bs

/-- A transaction whose external calls all succeed and whose `Play` succeeds,
with no notifications and no system-parameter update. -/
def cleanOk (u : Tx) : Prop :=
  u.savepointErr = none ∧ u.withOptionErr = none ∧ u.playResult = none ∧
  u.notifSize = 0 ∧ u.sysUpdate = false

instance (u : Tx) : Decidable (cleanOk u) := by
  unfold cleanOk
  infer_instance

/-- A transaction of the given kind whose oracles all succeed except that
`Play` returns `pr`. -/
def mkTx (h : Nat) (k tid : Int) (ty : TxType) (sc : Bool) (d : Nat)
    (pr : Option Err) : Tx :=
  { hash := h, keyID := k, toID := tid, txType := ty, isSC := sc,
    fullData := d, playResult := pr, savepointErr := none,
    withOptionErr := none, rollbackSpErr := none, sysUpdate := false,
    sysparUpdateErr := none, notifSize := 0, markBadErr := none,
    unmarshalErr := none }

/-- A block with the given mode and transactions whose external calls all
succeed. -/
def mkBlock (gen : Bool) (txs : List Tx) : Block :=
  { genBlock := gen, isGenesis := false, sqldml := false, sysUpdate := false,
    transactions := txs, startTxErr := none, getTxOutputsErr := none,
    sysparUpdateErrB := none, afterPlayErr := none, insertChainErr := none,
    commitErr := none }

/-- The state extension produced by executing a list of `cleanOk`
transactions: one savepoint event, one `AfterTx` record and one
`processedTx` entry per transaction. -/
def stExt (st : ExecSt) (pre : List Tx) : ExecSt :=
  { st with trace := st.trace ++ pre.map fun u => Ev.savepoint u.hash,
            aftersTxs := st.aftersTxs ++ pre.map Tx.hash,
            processedTx := st.processedTx ++ pre.map Tx.fullData }

/-- The set of banned senders after the ban pass has processed `txs`,
starting from `banK` (assuming no `MarkTransactionBad` call failed). -/
def banKAfter (banK : List Int) (txs : List Tx) : List Int :=
  match txs with
  | [] => banK
  | t :: rest =>
    if ¬t.keyID ∈ banK ∧ t.isSC then banKAfter (banK ++ [t.keyID]) rest
    else banKAfter banK rest

/-- Whether some transaction of the list is a smart contract sent by `k`. -/
def hasSCSender (txs : List Tx) (k : Int) : Bool :=
  txs.any fun u => u.isSC && u.keyID == k

/-- Occurrences of an event in a trace. -/
def countEv (ev : Ev) : List Ev → Nat
  | [] => 0
  | x :: rest => (if x = ev then 1 else 0) + countEv ev rest

/-- Pairwise "shares at most account 0" over the groups of a group map. -/
def groupsDisj0 (accts : Tx → List Int) (m : List (Nat × List Tx)) : Prop :=
  m.Pairwise fun p q => disjAcc0 (txAccounts accts p.2) (txAccounts accts q.2)

/-- Concrete transactions and blocks used by the claim instances below. -/
def c1ok : Tx := mkTx 1 10 0 .smartContract true 101 none

def c1bad : Tx := mkTx 2 20 0 .smartContract true 102 (some (.msg "contract error" false))

def c1ok2 : Tx := mkTx 3 30 0 .smartContract true 103 none

def c1block : Block := mkBlock true [c1ok, c1bad, c1ok2]

def emptyExecSt : ExecSt :=
  { trace := [], aftersTxs := [], processedTx := [], notifications := [],
    sysUpdate := false }

def c2tx1 : Tx := mkTx 1 10 0 .smartContract true 101 none

def c2tx2 (e : Err) : Tx := mkTx 2 20 0 .smartContract true 102 (some e)

def c2tx3 : Tx := mkTx 3 30 0 .smartContract true 103 none

def c2block (e : Err) : Block := mkBlock true [c2tx1, c2tx2 e, c2tx3]

def c3t1 : Tx := mkTx 1 0 5 .utxo false 1 none

def c3t2 : Tx := mkTx 2 0 7 .utxo false 2 none

def c4sc : Tx := mkTx 1 20 0 .smartContract true 9 none

def c4block : Block := { mkBlock true [c4sc] with getTxOutputsErr := some "db" }

def c4w1 : Tx := mkTx 1 20 0 .smartContract true 11 none

def c4w2 : Tx := mkTx 2 20 0 .smartContract true 12 none

def c4w3 : Tx := mkTx 3 7 0 .delay false 13 none

def c5pre : Tx := mkTx 1 10 0 .smartContract true 101 none

def c5limit : Tx := mkTx 2 20 0 .smartContract true 102 (some .limitStop)

def c5rest : Tx := mkTx 3 30 0 .smartContract true 103 none

def c6block : Block := mkBlock true []

def c7ts : Tx := mkTx 1 5 0 .transferSelf false 9 (some .networkStopping)

def c7block : Block := mkBlock true [c7ts]

def c7pre : Tx := mkTx 1 10 0 .stopNetwork false 101 none

def c7stop : Tx := mkTx 2 20 0 .stopNetwork false 102 (some .networkStopping)

def c7extra : Tx := mkTx 3 30 0 .delay false 103 none

def c8t1 : Tx := mkTx 1 1 2 .utxo false 1 none

def c8t2 : Tx := mkTx 2 3 4 .utxo false 2 none

def c8t3 : Tx := mkTx 3 1 3 .utxo false 3 none

def c9block : Block := { mkBlock true [c1ok] with commitErr := some "commit failed" }

def c10t : Tx := { mkTx 2 7 0 .delay false 12 none with markBadErr := some "mark failed" }

def c10block : Block :=
  { mkBlock true [c1ok, c10t] with getTxOutputsErr := some "db" }

/-! ## Executor lemmas -/

theorem execTx_ok (genBlock : Bool) (curTx : Nat) (t : Tx) (st : ExecSt)
    (g : Option Err) (h : cleanOk t) :
    execTx genBlock curTx t st g =
      (stExt st [t], g, .next) := by
  obtain ⟨h1, h2, h3, h4, h5⟩ := h
  simp [execTx, stExt, h1, h2, h3, h4, h5]

theorem stExt_nil (st : ExecSt) : stExt st [] = st := by
  simp [stExt]

theorem stExt_cons (st : ExecSt) (u : Tx) (us : List Tx) :
    stExt st (u :: us) = stExt (stExt st [u]) us := by
  simp [stExt, List.append_assoc]

theorem serialLoop_front (genBlock : Bool) (pre l : List Tx) (curTx : Nat)
    (st : ExecSt) (g : Option Err) (h : ∀ u ∈ pre, cleanOk u) :
    serialExecuteTxsLoop genBlock curTx (pre ++ l) st g =
      serialExecuteTxsLoop genBlock (curTx + pre.length) l (stExt st pre) g := by
  induction pre generalizing curTx st with
  | nil => simp [stExt_nil]
  | cons u us ih =>
    have hu : cleanOk u := h u (by simp)
    have hus : ∀ v ∈ us, cleanOk v := fun v hv => h v (by simp [hv])
    rw [List.cons_append, serialExecuteTxsLoop, execTx_ok genBlock curTx u st g hu]
    rw [ih (curTx + 1) (stExt st [u]) hus, ← stExt_cons]
    have hn : curTx + (u :: us).length = curTx + 1 + us.length := by
      simp only [List.length_cons]
      omega
    rw [hn]

theorem execTx_net (genBlock : Bool) (curTx : Nat) (t : Tx) (st : ExecSt)
    (g : Option Err) (hsp : t.savepointErr = none) (hwo : t.withOptionErr = none)
    (hpl : t.playResult = some Err.networkStopping) :
    execTx genBlock curTx t st g =
      ({ st with trace := st.trace ++ [Ev.savepoint t.hash, Ev.pauseNode] },
        g, .ret Err.networkStopping) := by
  simp [execTx, hsp, hwo, hpl]

theorem execTx_limit_gen (curTx : Nat) (t : Tx) (st : ExecSt) (g : Option Err)
    (hsp : t.savepointErr = none) (hwo : t.withOptionErr = none)
    (hpl : t.playResult = some Err.limitStop) (hrb : t.rollbackSpErr = none) :
    execTx true curTx t st g =
      ({ st with trace := st.trace ++
          [Ev.savepoint t.hash, Ev.rollbackSavepoint t.hash] },
        g, if curTx = 0 then .ret Err.limitStop else .brk) := by
  by_cases hc : curTx = 0 <;> simp [execTx, hsp, hwo, hpl, hrb, hc]

theorem execTx_limit_val (curTx : Nat) (t : Tx) (st : ExecSt) (g : Option Err)
    (hsp : t.savepointErr = none) (hwo : t.withOptionErr = none)
    (hpl : t.playResult = some Err.limitStop) (hrb : t.rollbackSpErr = none)
    (hsu : t.sysUpdate = false) :
    (execTx false curTx t st g).2.2 = .ret Err.limitStop ∧
    (execTx false curTx t st g).2.1 = g := by
  by_cases hsc : t.isSC <;>
    simp [execTx, hsp, hwo, hpl, hrb, hsu, hsc, Err.containsVMSig]

/-! ## Classification lemmas -/

theorem unmarshalEvents_none (txs : List Tx)
    (h : ∀ u ∈ txs, u.unmarshalErr = none) : unmarshalEvents txs = [] := by
  induction txs with
  | nil => rfl
  | cons t rest ih =>
    have ht := h t (by simp)
    have hr : ∀ u ∈ rest, u.unmarshalErr = none := fun u hu => h u (by simp [hu])
    simp only [unmarshalEvents, List.filterMap_cons, ht]
    exact ih hr

theorem classifyEvents_none (b : Block)
    (h : ∀ u ∈ b.transactions, u.unmarshalErr = none) : classifyEvents b = [] := by
  have hty : ∀ ty, unmarshalEvents (ofType b ty) = [] := by
    intro ty
    apply unmarshalEvents_none
    intro u hu
    exact h u (List.mem_of_mem_filter hu)
  simp [classifyEvents, typeOrder, hty]

theorem parsedOk_self (txs : List Tx)
    (h : ∀ u ∈ txs, u.unmarshalErr = none) : parsedOk txs = txs := by
  unfold parsedOk
  rw [List.filter_eq_self]
  intro u hu
  simp [h u hu]

theorem ofType_eq_self (b : Block) (ty : TxType)
    (h : ∀ u ∈ b.transactions, u.txType = ty) : ofType b ty = b.transactions := by
  unfold ofType
  rw [List.filter_eq_self]
  intro u hu
  simp [h u hu]

theorem ofType_eq_nil (b : Block) (ty : TxType)
    (h : ∀ u ∈ b.transactions, ¬u.txType = ty) : ofType b ty = [] := by
  unfold ofType
  rw [List.filter_eq_nil_iff]
  intro u hu
  simp [h u hu]

/-! ## Ban-pass lemmas -/

theorem banPass_shift (e : Err) (txs : List Tx) (banK : List Int)
    (tr : List Ev) :
    banPass e txs banK tr =
      (tr ++ (banPass e txs banK []).1, (banPass e txs banK []).2) := by
  induction txs generalizing banK tr with
  | nil => simp [banPass]
  | cons t rest ih =>
    by_cases hb : ¬t.keyID ∈ banK ∧ t.isSC
    · simp only [banPass, if_pos hb]
      rw [ih (banK ++ [t.keyID]) (tr ++ [Ev.banKey t.keyID]),
        ih (banK ++ [t.keyID]) ([] ++ [Ev.banKey t.keyID])]
      simp [List.append_assoc]
    · simp only [banPass, if_neg hb]
      cases hm : t.markBadErr with
      | some m => simp
      | none =>
        rw [ih banK (tr ++ [Ev.markBad t.hash e.errorString]),
          ih banK ([] ++ [Ev.markBad t.hash e.errorString])]
        simp [List.append_assoc]

theorem banPass_append (e : Err) (xs ys : List Tx) (banK : List Int)
    (tr : List Ev) (h : ∀ u ∈ xs, u.markBadErr = none) :
    banPass e (xs ++ ys) banK tr =
      banPass e ys (banKAfter banK xs) ((banPass e xs banK tr).1) := by
  induction xs generalizing banK tr with
  | nil => simp [banPass, banKAfter]
  | cons t rest ih =>
    have ht : t.markBadErr = none := h t (by simp)
    have hr : ∀ u ∈ rest, u.markBadErr = none := fun u hu => h u (by simp [hu])
    by_cases hb : ¬t.keyID ∈ banK ∧ t.isSC
    · simp only [List.cons_append, banPass, banKAfter, if_pos hb]
      exact ih (banK ++ [t.keyID]) (tr ++ [Ev.banKey t.keyID]) hr
    · simp only [List.cons_append, banPass, banKAfter, if_neg hb, ht]
      exact ih banK (tr ++ [Ev.markBad t.hash e.errorString]) hr

theorem countEv_append (ev : Ev) (a b : List Ev) :
    countEv ev (a ++ b) = countEv ev a + countEv ev b := by
  induction a with
  | nil => simp [countEv]
  | cons x xs ih =>
    have h1 : countEv ev ((x :: xs) ++ b) =
        (if x = ev then 1 else 0) + countEv ev (xs ++ b) := rfl
    rw [h1, ih, countEv]
    omega

theorem hasSCSender_nil (k : Int) : hasSCSender [] k = false := rfl

theorem hasSCSender_cons_iff (t : Tx) (rest : List Tx) (k : Int) :
    hasSCSender (t :: rest) k = true ↔
      (t.isSC = true ∧ t.keyID = k) ∨ hasSCSender rest k = true := by
  simp [hasSCSender, List.any_cons, Bool.and_eq_true]

theorem banKAfter_mem (banK : List Int) (txs : List Tx) (k : Int) :
    k ∈ banKAfter banK txs ↔ k ∈ banK ∨ hasSCSender txs k = true := by
  induction txs generalizing banK with
  | nil => simp [banKAfter, hasSCSender]
  | cons t rest ih =>
    rw [hasSCSender_cons_iff]
    by_cases hb : ¬t.keyID ∈ banK ∧ t.isSC
    · rw [banKAfter, if_pos hb, ih]
      simp only [List.mem_append, List.mem_singleton]
      constructor
      · rintro ((h | h) | h)
        · exact Or.inl h
        · exact Or.inr (Or.inl ⟨hb.2, h.symm⟩)
        · exact Or.inr (Or.inr h)
      · rintro (h | ⟨h1, h2⟩ | h)
        · exact Or.inl (Or.inl h)
        · exact Or.inl (Or.inr h2.symm)
        · exact Or.inr h
    · rw [banKAfter, if_neg hb, ih]
      rw [not_and] at hb
      constructor
      · rintro (h | h)
        · exact Or.inl h
        · exact Or.inr (Or.inr h)
      · rintro (h | ⟨h1, h2⟩ | h)
        · exact Or.inl h
        · by_cases hkb : t.keyID ∈ banK
          · exact Or.inl (h2 ▸ hkb)
          · exact absurd h1 (hb hkb)
        · exact Or.inr h

theorem banPass_count_ban (e : Err) (txs : List Tx) (banK : List Int)
    (h : ∀ u ∈ txs, u.markBadErr = none) (k : Int) :
    countEv (Ev.banKey k) (banPass e txs banK []).1 =
      if ¬k ∈ banK ∧ hasSCSender txs k = true then 1 else 0 := by
  induction txs generalizing banK with
  | nil => simp [banPass, hasSCSender, countEv]
  | cons t rest ih =>
    have ht : t.markBadErr = none := h t (by simp)
    have hr : ∀ u ∈ rest, u.markBadErr = none := fun u hu => h u (by simp [hu])
    by_cases hb : ¬t.keyID ∈ banK ∧ t.isSC
    · simp only [banPass, if_pos hb]
      rw [banPass_shift, countEv_append, ih (banK ++ [t.keyID]) hr]
      by_cases hk : k = t.keyID
      · have c1 : countEv (Ev.banKey k) ([] ++ [Ev.banKey t.keyID]) = 1 := by
          simp [countEv, hk]
        have c2 : ¬(¬k ∈ banK ++ [t.keyID] ∧ hasSCSender rest k = true) := by
          rw [hk]
          simp
        have c3 : ¬k ∈ banK ∧ hasSCSender (t :: rest) k = true := by
          refine ⟨hk ▸ hb.1, ?_⟩
          rw [hasSCSender_cons_iff]
          exact Or.inl ⟨hb.2, hk.symm⟩
        rw [c1, if_neg c2, if_pos c3]
      · have c1 : countEv (Ev.banKey k) ([] ++ [Ev.banKey t.keyID]) = 0 := by
          have hne : ¬(Ev.banKey t.keyID = Ev.banKey k) := by
            intro hc
            injection hc with h2
            exact hk h2.symm
          simp [countEv, hne]
        have c2 : (¬k ∈ banK ++ [t.keyID] ∧ hasSCSender rest k = true) ↔
            (¬k ∈ banK ∧ hasSCSender (t :: rest) k = true) := by
          rw [hasSCSender_cons_iff]
          simp only [List.mem_append, List.mem_singleton]
          constructor
          · rintro ⟨h1, h2⟩
            exact ⟨fun hc => h1 (Or.inl hc), Or.inr h2⟩
          · rintro ⟨h1, h2 | h2⟩
            · exact absurd h2.2 (fun hc => hk hc.symm)
            · refine ⟨?_, h2⟩
              rintro (hc | hc)
              · exact h1 hc
              · exact hk hc
        rw [c1, if_congr c2 rfl rfl]
        omega
    · simp only [banPass, if_neg hb, ht]
      rw [banPass_shift, countEv_append, ih banK hr]
      have c1 : countEv (Ev.banKey k) ([] ++ [Ev.markBad t.hash e.errorString]) = 0 := by
        simp [countEv]
      have c2 : (¬k ∈ banK ∧ hasSCSender rest k = true) ↔
          (¬k ∈ banK ∧ hasSCSender (t :: rest) k = true) := by
        rw [hasSCSender_cons_iff]
        rw [not_and] at hb
        constructor
        · rintro ⟨h1, h2⟩
          exact ⟨h1, Or.inr h2⟩
        · rintro ⟨h1, h2 | h2⟩
          · exfalso
            by_cases hkb : t.keyID ∈ banK
            · exact h1 (h2.2 ▸ hkb)
            · exact (hb hkb) h2.1
          · exact ⟨h1, h2⟩
      rw [c1, if_congr c2 rfl rfl]
      omega

theorem banPass_count_mark_zero (e : Err) (txs : List Tx) (banK : List Int)
    (h : ∀ u ∈ txs, u.markBadErr = none) (hh : Nat)
    (h2 : ∀ u ∈ txs, u.hash ≠ hh) (s : String) :
    countEv (Ev.markBad hh s) (banPass e txs banK []).1 = 0 := by
  induction txs generalizing banK with
  | nil => simp [banPass, countEv]
  | cons t rest ih =>
    have ht : t.markBadErr = none := h t (by simp)
    have hth : t.hash ≠ hh := h2 t (by simp)
    have hr : ∀ u ∈ rest, u.markBadErr = none := fun u hu => h u (by simp [hu])
    have hrh : ∀ u ∈ rest, u.hash ≠ hh := fun u hu => h2 u (by simp [hu])
    by_cases hb : ¬t.keyID ∈ banK ∧ t.isSC
    · simp only [banPass, if_pos hb]
      rw [banPass_shift, countEv_append, ih (banK ++ [t.keyID]) hr hrh]
      simp [countEv]
    · simp only [banPass, if_neg hb, ht]
      rw [banPass_shift, countEv_append, ih banK hr hrh]
      have hne : ¬(Ev.markBad t.hash e.errorString = Ev.markBad hh s) := by
        intro hc
        injection hc with hc1 hc2
        exact hth hc1
      simp [countEv, hne]

theorem banPass_stops (e : Err) (pre : List Tx) (t : Tx) (rest : List Tx)
    (tr : List Ev) (hpre : ∀ u ∈ pre, u.markBadErr = none)
    (ht : ¬(¬t.keyID ∈ banKAfter [] pre ∧ t.isSC)) (m : String)
    (hm : t.markBadErr = some m) :
    banPass e (pre ++ t :: rest) [] tr = banPass e (pre ++ [t]) [] tr ∧
    (banPass e (pre ++ t :: rest) [] tr).2 = some (Err.msg m false) := by
  rw [banPass_append e pre (t :: rest) [] tr hpre,
      banPass_append e pre [t] [] tr hpre]
  constructor
  · simp only [banPass, if_neg ht, hm]
  · simp only [banPass, if_neg ht, hm]

/-! ## Grouper lemmas -/

theorem waInsert_mem (wa : List Int) (k x : Int) (h : x ∈ wa) :
    x ∈ waInsert wa k := by
  unfold waInsert
  split
  · exact h
  · exact List.mem_append.mpr (Or.inl h)

theorem waInsert_mem_self (wa : List Int) (k : Int) : k ∈ waInsert wa k := by
  unfold waInsert
  split
  · assumption
  · exact List.mem_append.mpr (Or.inr (by simp))

theorem waInsertAcc_mem (wa accts : List Int) (x : Int) (h : x ∈ wa) :
    x ∈ waInsertAcc wa accts := by
  induction accts generalizing wa with
  | nil => exact h
  | cons a rest ih => exact ih (waInsert wa a) (waInsert_mem wa a x h)

theorem waInsertAcc_mem_of (wa accts : List Int) (x : Int) (h : x ∈ accts) :
    x ∈ waInsertAcc wa accts := by
  induction accts generalizing wa with
  | nil => cases h
  | cons a rest ih =>
    rcases List.mem_cons.mp h with rfl | h
    · exact waInsertAcc_mem (waInsert wa x) rest x (waInsert_mem_self wa x)
    · exact ih (waInsert wa a) h

theorem mem_txAccounts (accts : Tx → List Int) (g : List Tx) (a : Int) :
    a ∈ txAccounts accts g ↔ ∃ u ∈ g, a ∈ accts u := by
  simp [txAccounts]

theorem txAccounts_append (accts : Tx → List Int) (a b : List Tx) :
    txAccounts accts (a ++ b) = txAccounts accts a ++ txAccounts accts b := by
  simp [txAccounts]

theorem txMatches_of_mem (accts : Tx → List Int) (wa : List Int) (t : Tx)
    (a : Int) (ha : a ∈ accts t) (hw : a ∈ wa) (h0 : a ≠ 0) :
    txMatches accts wa t = true := by
  unfold txMatches
  rw [List.any_eq_true]
  refine ⟨a, ha, ?_⟩
  rw [decide_eq_true_eq]
  unfold waLookup
  rw [if_pos hw]
  exact h0

/-- Unmatched transactions share no nonzero account with `wa`. -/
theorem not_txMatches_disj (accts : Tx → List Int) (wa : List Int) (txs : List Tx)
    (gl : List Tx) (hsub : ∀ a ∈ txAccounts accts gl, a ≠ 0 → a ∈ wa)
    (hm : ∀ t ∈ txs, txMatches accts wa t = false) :
    disjAcc0 (txAccounts accts gl) (txAccounts accts txs) := by
  intro a hgl htxs
  by_contra h0
  obtain ⟨u, hu, hau⟩ := (mem_txAccounts accts txs a).mp htxs
  have := txMatches_of_mem accts wa u a hau (hsub a hgl h0) h0
  rw [hm u hu] at this
  cases this

theorem sweepTxs_shape (accts : Tx → List Int) (wa : List Int)
    (group rem txs : List Tx) :
    ∃ added kept, (sweepTxs accts wa group rem txs).2.1 = group ++ added ∧
      (sweepTxs accts wa group rem txs).2.2 = rem ++ kept ∧
      added.Sublist txs ∧ kept.Sublist txs := by
  induction txs generalizing wa group rem with
  | nil =>
    exact ⟨[], [], by simp [sweepTxs], by simp [sweepTxs],
      List.nil_sublist _, List.nil_sublist _⟩
  | cons t rest ih =>
    by_cases hm : txMatches accts wa t
    · obtain ⟨added, kept, h1, h2, h3, h4⟩ :=
        ih (waInsertAcc wa (accts t)) (group ++ [t]) rem
      refine ⟨t :: added, kept, ?_, ?_, ?_, ?_⟩
      · simp only [sweepTxs, if_pos hm]
        rw [h1]
        simp
      · simp only [sweepTxs, if_pos hm]
        exact h2
      · exact List.Sublist.cons₂ t h3
      · exact List.Sublist.cons t h4
    · obtain ⟨added, kept, h1, h2, h3, h4⟩ := ih wa group (rem ++ [t])
      refine ⟨added, t :: kept, ?_, ?_, ?_, ?_⟩
      · simp only [sweepTxs, if_neg hm]
        exact h1
      · simp only [sweepTxs, if_neg hm]
        rw [h2]
        simp
      · exact List.Sublist.cons t h3
      · exact List.Sublist.cons₂ t h4

theorem sweepTxs_length (accts : Tx → List Int) (wa : List Int)
    (group rem txs : List Tx) :
    (sweepTxs accts wa group rem txs).2.1.length +
      (sweepTxs accts wa group rem txs).2.2.length =
      group.length + rem.length + txs.length := by
  induction txs generalizing wa group rem with
  | nil => simp [sweepTxs]
  | cons t rest ih =>
    by_cases hm : txMatches accts wa t
    · simp only [sweepTxs, if_pos hm]
      rw [ih (waInsertAcc wa (accts t)) (group ++ [t]) rem]
      simp
      omega
    · simp only [sweepTxs, if_neg hm]
      rw [ih wa group (rem ++ [t])]
      simp
      omega

theorem sweepTxs_wa_mono (accts : Tx → List Int) (wa : List Int)
    (group rem txs : List Tx) (x : Int) (h : x ∈ wa) :
    x ∈ (sweepTxs accts wa group rem txs).1 := by
  induction txs generalizing wa group rem with
  | nil => simpa [sweepTxs] using h
  | cons t rest ih =>
    by_cases hm : txMatches accts wa t
    · simp only [sweepTxs, if_pos hm]
      exact ih (waInsertAcc wa (accts t)) (group ++ [t]) rem
        (waInsertAcc_mem wa (accts t) x h)
    · simp only [sweepTxs, if_neg hm]
      exact ih wa group (rem ++ [t]) h

theorem sweepTxs_subwa (accts : Tx → List Int) (wa : List Int)
    (group rem txs : List Tx)
    (h : ∀ a ∈ txAccounts accts group, a ≠ 0 → a ∈ wa) :
    ∀ a ∈ txAccounts accts (sweepTxs accts wa group rem txs).2.1, a ≠ 0 →
      a ∈ (sweepTxs accts wa group rem txs).1 := by
  induction txs generalizing wa group rem with
  | nil => simpa [sweepTxs] using h
  | cons t rest ih =>
    by_cases hm : txMatches accts wa t
    · simp only [sweepTxs, if_pos hm]
      apply ih
      intro a ha h0
      rw [txAccounts_append] at ha
      rcases List.mem_append.mp ha with ha | ha
      · exact waInsertAcc_mem wa (accts t) a (h a ha h0)
      · have hat : a ∈ accts t := by
          simpa [txAccounts] using ha
        exact waInsertAcc_mem_of wa (accts t) a hat
    · simp only [sweepTxs, if_neg hm]
      exact ih wa group (rem ++ [t]) h

theorem sweepTxs_nogrow (accts : Tx → List Int) (wa : List Int)
    (group rem txs : List Tx)
    (h : (sweepTxs accts wa group rem txs).2.1.length = group.length) :
    (sweepTxs accts wa group rem txs).1 = wa ∧
      (sweepTxs accts wa group rem txs).2.2 = rem ++ txs ∧
      ∀ t ∈ txs, txMatches accts wa t = false := by
  induction txs generalizing wa group rem with
  | nil => simp [sweepTxs]
  | cons t rest ih =>
    by_cases hm : txMatches accts wa t
    · exfalso
      obtain ⟨added, kept, h1, _, _, _⟩ :=
        sweepTxs_shape accts (waInsertAcc wa (accts t)) (group ++ [t]) rem rest
      simp only [sweepTxs, if_pos hm] at h
      rw [h1] at h
      simp at h
    · simp only [sweepTxs, if_neg hm] at h ⊢
      obtain ⟨g1, g2, g3⟩ := ih wa group (rem ++ [t]) h
      refine ⟨g1, ?_, ?_⟩
      · rw [g2]
        simp
      · intro u hu
        rcases List.mem_cons.mp hu with rfl | hu
        · exact Bool.eq_false_iff.mpr hm
        · exact g3 u hu

theorem onePass_shape (accts : Tx → List Int) (wa : List Int)
    (group txs : List Tx) :
    ∃ added kept, (onePass accts wa group txs).2.1 = group ++ added ∧
      (onePass accts wa group txs).2.2 = kept ∧
      added.Sublist txs ∧ kept.Sublist txs := by
  match txs with
  | [] => exact ⟨[], [], by simp [onePass], by simp [onePass],
      List.nil_sublist _, List.nil_sublist _⟩
  | t :: rest =>
    by_cases hw : wa.length = 0
    · obtain ⟨added, kept, h1, h2, h3, h4⟩ :=
        sweepTxs_shape accts (waInsertAcc wa (accts t)) (group ++ [t]) [] rest
      refine ⟨t :: added, kept, ?_, ?_, ?_, ?_⟩
      · simp only [onePass, if_pos hw]
        rw [h1]
        simp
      · simp only [onePass, if_pos hw]
        rw [h2]
        simp
      · exact List.Sublist.cons₂ t h3
      · exact List.Sublist.cons t h4
    · obtain ⟨added, kept, h1, h2, h3, h4⟩ :=
        sweepTxs_shape accts wa group [] (t :: rest)
      refine ⟨added, kept, ?_, ?_, h3, h4⟩
      · simp only [onePass, if_neg hw]
        exact h1
      · simp only [onePass, if_neg hw]
        rw [h2]
        simp

theorem onePass_length (accts : Tx → List Int) (wa : List Int)
    (group txs : List Tx) (h : txs ≠ []) :
    (onePass accts wa group txs).2.1.length +
      (onePass accts wa group txs).2.2.length =
      group.length + txs.length := by
  match txs with
  | [] => exact absurd rfl h
  | t :: rest =>
    by_cases hw : wa.length = 0
    · simp only [onePass, if_pos hw]
      have := sweepTxs_length accts (waInsertAcc wa (accts t)) (group ++ [t]) [] rest
      rw [this]
      simp
      omega
    · simp only [onePass, if_neg hw]
      have := sweepTxs_length accts wa group [] (t :: rest)
      rw [this]
      simp

theorem onePass_subwa (accts : Tx → List Int) (wa : List Int)
    (group txs : List Tx)
    (h : ∀ a ∈ txAccounts accts group, a ≠ 0 → a ∈ wa) :
    ∀ a ∈ txAccounts accts (onePass accts wa group txs).2.1, a ≠ 0 →
      a ∈ (onePass accts wa group txs).1 := by
  match txs with
  | [] => simpa [onePass] using h
  | t :: rest =>
    by_cases hw : wa.length = 0
    · simp only [onePass, if_pos hw]
      apply sweepTxs_subwa
      intro a ha h0
      rw [txAccounts_append] at ha
      rcases List.mem_append.mp ha with ha | ha
      · exact waInsertAcc_mem wa (accts t) a (h a ha h0)
      · have hat : a ∈ accts t := by
          simpa [txAccounts] using ha
        exact waInsertAcc_mem_of wa (accts t) a hat
    · simp only [onePass, if_neg hw]
      exact sweepTxs_subwa accts wa group [] (t :: rest) h

theorem onePass_nogrow (accts : Tx → List Int) (wa : List Int)
    (group txs : List Tx) (hw : ¬wa.length = 0)
    (h : (onePass accts wa group txs).2.1.length = group.length) :
    (onePass accts wa group txs).1 = wa ∧
      (onePass accts wa group txs).2.2 = txs ∧
      ∀ t ∈ txs, txMatches accts wa t = false := by
  match txs with
  | [] => simp [onePass]
  | t :: rest =>
    simp only [onePass, if_neg hw] at h ⊢
    obtain ⟨g1, g2, g3⟩ := sweepTxs_nogrow accts wa group [] (t :: rest) h
    exact ⟨g1, by simpa using g2, g3⟩

theorem onePass_grow_of_wa_nil (accts : Tx → List Int) (wa : List Int)
    (group : List Tx) (t : Tx) (rest : List Tx) (hw : wa.length = 0) :
    group.length < (onePass accts wa group (t :: rest)).2.1.length := by
  obtain ⟨added, kept, h1, _, _, _⟩ :=
    sweepTxs_shape accts (waInsertAcc wa (accts t)) (group ++ [t]) [] rest
  simp only [onePass, if_pos hw]
  rw [h1]
  simp

/-- Accounts of the pass's group output come from the old group or the
input; accounts of the remainder come from the input. -/
theorem onePass_accounts (accts : Tx → List Int) (wa : List Int)
    (group txs : List Tx) :
    (∀ a ∈ txAccounts accts (onePass accts wa group txs).2.1,
        a ∈ txAccounts accts group ∨ a ∈ txAccounts accts txs) ∧
    (∀ a ∈ txAccounts accts (onePass accts wa group txs).2.2,
        a ∈ txAccounts accts txs) := by
  obtain ⟨added, kept, h1, h2, h3, h4⟩ := onePass_shape accts wa group txs
  constructor
  · intro a ha
    rw [h1, txAccounts_append] at ha
    rcases List.mem_append.mp ha with ha | ha
    · exact Or.inl ha
    · right
      obtain ⟨u, hu, hau⟩ := (mem_txAccounts accts added a).mp ha
      exact (mem_txAccounts accts txs a).mpr ⟨u, h3.subset hu, hau⟩
  · intro a ha
    rw [h2] at ha
    obtain ⟨u, hu, hau⟩ := (mem_txAccounts accts kept a).mp ha
    exact (mem_txAccounts accts txs a).mpr ⟨u, h4.subset hu, hau⟩

theorem mapSet_mem (m : List (Nat × List Tx)) (k : Nat) (v : List Tx)
    (p : Nat × List Tx) (h : p ∈ mapSet m k v) : p ∈ m ∨ p = (k, v) := by
  induction m with
  | nil =>
    simp only [mapSet, List.mem_singleton] at h
    exact Or.inr h
  | cons q rest ih =>
    unfold mapSet at h
    split at h
    · rcases List.mem_cons.mp h with rfl | h
      · exact Or.inr rfl
      · exact Or.inl (List.mem_cons.mpr (Or.inr h))
    · rcases List.mem_cons.mp h with rfl | h
      · exact Or.inl (List.mem_cons.mpr (Or.inl rfl))
      · rcases ih h with h | h
        · exact Or.inl (List.mem_cons.mpr (Or.inr h))
        · exact Or.inr h

theorem mapSet_pairwise {R : (Nat × List Tx) → (Nat × List Tx) → Prop}
    (m : List (Nat × List Tx)) (k : Nat) (v : List Tx)
    (hm : m.Pairwise R)
    (h1 : ∀ p ∈ m, R p (k, v)) (h2 : ∀ p ∈ m, R (k, v) p) :
    (mapSet m k v).Pairwise R := by
  induction m with
  | nil => simp [mapSet]
  | cons q rest ih =>
    rw [List.pairwise_cons] at hm
    unfold mapSet
    split
    · rw [List.pairwise_cons]
      refine ⟨fun p hp => h2 p (List.mem_cons.mpr (Or.inr hp)), hm.2⟩
    · rw [List.pairwise_cons]
      constructor
      · intro p hp
        rcases mapSet_mem rest k v p hp with h | h
        · exact hm.1 p h
        · rw [h]
          exact h1 q (List.mem_cons.mpr (Or.inl rfl))
      · exact ih hm.2 (fun p hp => h1 p (List.mem_cons.mpr (Or.inr hp)))
          (fun p hp => h2 p (List.mem_cons.mpr (Or.inr hp)))

theorem disjAcc0_symm {xs ys : List Int} (h : disjAcc0 xs ys) : disjAcc0 ys xs :=
  fun a h1 h2 => h a h2 h1

theorem groupTxsF_disj0 (accts : Tx → List Int) (fuel : Nat) :
    ∀ (txs : List Tx) (wa : List Int) (st : GroupSt),
      groupsDisj0 accts st.groupMap →
      (∀ p ∈ st.groupMap,
        disjAcc0 (txAccounts accts p.2)
          (txAccounts accts st.groupList ++ txAccounts accts txs)) →
      (∀ a ∈ txAccounts accts st.groupList, a ≠ 0 → a ∈ wa) →
      groupsDisj0 accts (groupTxsF accts fuel txs wa st).groupMap := by
  induction fuel with
  | zero =>
    intro txs wa st h1 h2 h3
    simpa only [groupTxsF] using h1
  | succ fuel ih =>
    intro txs wa st h1 h2 h3
    match txs with
    | [] => simpa only [groupTxsF] using h1
    | t :: rest =>
      simp only [groupTxsF]
      have hacc := onePass_accounts accts wa st.groupList (t :: rest)
      by_cases hgrow : st.groupList.length <
          (onePass accts wa st.groupList (t :: rest)).2.1.length
      · rw [if_pos hgrow]
        by_cases hrem : (onePass accts wa st.groupList (t :: rest)).2.2 = []
        · rw [if_pos hrem]
          have hnew : ∀ p ∈ st.groupMap,
              disjAcc0 (txAccounts accts p.2)
                (txAccounts accts (onePass accts wa st.groupList (t :: rest)).2.1) := by
            intro p hp a ha hb
            rcases hacc.1 a hb with hc | hc
            · exact h2 p hp a ha (List.mem_append.mpr (Or.inl hc))
            · exact h2 p hp a ha (List.mem_append.mpr (Or.inr hc))
          exact mapSet_pairwise st.groupMap st.serial _ h1 hnew
            (fun p hp => disjAcc0_symm (hnew p hp))
        · rw [if_neg hrem]
          apply ih
          · exact h1
          · intro p hp a ha hb
            rcases List.mem_append.mp hb with hc | hc
            · rcases hacc.1 a hc with hd | hd
              · exact h2 p hp a ha (List.mem_append.mpr (Or.inl hd))
              · exact h2 p hp a ha (List.mem_append.mpr (Or.inr hd))
            · exact h2 p hp a ha (List.mem_append.mpr (Or.inr (hacc.2 a hc)))
          · exact onePass_subwa accts wa st.groupList (t :: rest) h3
      · rw [if_neg hgrow]
        by_cases hlen : st.groupList.length > 0
        · rw [if_pos hlen]
          have hw : ¬wa.length = 0 := by
            intro hw0
            exact hgrow (onePass_grow_of_wa_nil accts wa st.groupList t rest hw0)
          have heq : (onePass accts wa st.groupList (t :: rest)).2.1.length =
              st.groupList.length := by
            obtain ⟨added, kept, hs1, _, _, _⟩ :=
              onePass_shape accts wa st.groupList (t :: rest)
            have hle : st.groupList.length ≤
                (onePass accts wa st.groupList (t :: rest)).2.1.length := by
              rw [hs1]
              simp
            omega
          obtain ⟨hn1, hn2, hn3⟩ :=
            onePass_nogrow accts wa st.groupList (t :: rest) hw heq
          have hgl : disjAcc0 (txAccounts accts st.groupList)
              (txAccounts accts (t :: rest)) :=
            not_txMatches_disj accts wa (t :: rest) st.groupList h3 hn3
          have hclosed : ∀ p ∈ st.groupMap,
              disjAcc0 (txAccounts accts p.2) (txAccounts accts st.groupList) := by
            intro p hp a ha hb
            exact h2 p hp a ha (List.mem_append.mpr (Or.inl hb))
          apply ih
          · exact mapSet_pairwise st.groupMap st.serial _ h1 hclosed
              (fun p hp => disjAcc0_symm (hclosed p hp))
          · intro p hp a ha hb
            rcases List.mem_append.mp hb with hc | hc
            · simp [txAccounts] at hc
            · rcases mapSet_mem st.groupMap st.serial st.groupList p hp with hd | hd
              · exact h2 p hd a ha (List.mem_append.mpr (Or.inr hc))
              · rw [hd] at ha
                exact hgl a ha hc
          · intro a ha
            simp [txAccounts] at ha
        · rw [if_neg hlen]
          exact h1

/-! ## Claims -/

/-- C1: in generation mode a non-fatal transaction failure is meant to be
recorded as the block's generation error and surface as the result of
`ProcessTxs` through its deferred composition.  On the block
`[c1ok, c1bad, c1ok2]` the executor does record the error in its `genBErr`
and continues with the next transaction (both good transactions are
accepted, the bad one is marked bad), but `genBErr` is only the executor's
by-value parameter: the assignment never reaches `ProcessTxs`, whose own
`genBErr` stays `nil`, so `ProcessTxs` (and `PlaySafe`) return no error —
the recorded error is lost instead of becoming the final error. -/
theorem claim1_code_bug :
    (serialExecuteTxs true [c1ok, c1bad, c1ok2] emptyExecSt none).2.1 =
      some (Err.msg "contract error" false) ∧
    Ev.markBad 2 "contract error" ∈ (ProcessTxs c1block).st.trace ∧
    (ProcessTxs c1block).txFullData = [101, 103] ∧
    (ProcessTxs c1block).err = none ∧
    (PlaySafe c1block).err = none := by
  decide

/-- C3 (counterexample): the grouper tests membership in `walletAddress` by
`walletAddress[k] != 0`, so the account id 0 never matches.  On two UTXO
transactions that share only the sender account 0, `groupUtxoTxs` produces
two groups whose account sets both contain 0 — they are not disjoint, so the
claim as stated is false. -/
theorem claim3_counterexample :
    groupUtxoTxs [c3t1, c3t2] = [(1, [c3t1]), (2, [c3t2])] ∧
    ¬ ((groupUtxoTxs [c3t1, c3t2]).Pairwise fun p q =>
        disjAcc (txAccounts utxoAccts p.2) (txAccounts utxoAccts q.2)) := by
  have hmap : groupUtxoTxs [c3t1, c3t2] = [(1, [c3t1]), (2, [c3t2])] := by decide
  refine ⟨hmap, ?_⟩
  intro h
  rw [hmap, List.pairwise_cons] at h
  have h0 := h.1 (2, [c3t2]) (by simp)
  exact h0 0 (by decide) (by decide)

/-- C3 (amended): for every input list, any two distinct groups produced by
`groupUtxoTxs` (accounts: sender `KeyID` and `UTXO.ToID`) or by
`groupTransferSelfTxs` (account: sender `KeyID`) share no account other than
the id 0, which the grouper's `!= 0` membership test cannot track. -/
theorem claim3_amended (txs : List Tx) :
    ((groupUtxoTxs txs).Pairwise fun p q =>
      disjAcc0 (txAccounts utxoAccts p.2) (txAccounts utxoAccts q.2)) ∧
    ((groupTransferSelfTxs txs).Pairwise fun p q =>
      disjAcc0 (txAccounts selfAccts p.2) (txAccounts selfAccts q.2)) := by
  constructor
  · exact groupTxsF_disj0 utxoAccts (2 * txs.length + 2) txs [] initGroupSt
      List.Pairwise.nil
      (fun p hp => absurd hp (List.not_mem_nil p))
      (fun a ha => absurd ha (by simp [initGroupSt, txAccounts]))
  · exact groupTxsF_disj0 selfAccts (2 * txs.length + 2) txs [] initGroupSt
      List.Pairwise.nil
      (fun p hp => absurd hp (List.not_mem_nil p))
      (fun a ha => absurd ha (by simp [initGroupSt, txAccounts]))

/-- C4 (counterexample): when generation fails with an empty accepted set,
the rejection loop of `PlaySafe` bans the sender of the first smart-contract
transaction and — because of the `continue` — skips `MarkTransactionBad` for
that transaction.  On a single-smart-contract-tx block failing at the
outputs preload, the transaction's sender is banned but the transaction is
never marked bad, so "every transaction is marked bad exactly once" is
false. -/
theorem claim4_counterexample :
    (PlaySafe c4block).trace = [Ev.rollbackOuter, Ev.banKey 20] ∧
    ∀ s, Ev.markBad c4sc.hash s ∉ (PlaySafe c4block).trace := by
  have htr : (PlaySafe c4block).trace = [Ev.rollbackOuter, Ev.banKey 20] := by
    decide
  refine ⟨htr, ?_⟩
  intro s h
  rw [htr] at h
  simp [c4sc, mkTx] at h

/-- C7 (counterexample): when a transaction executed in a parallel group
phase (here a TransferSelf transaction) fails with `ErrNetworkStopping`, the
executor pauses the node and returns the error, but the goroutine wrapper in
`ProcessTxs` discards it: `PlaySafe` commits the (empty) generated block and
returns `ErrEmptyBlock` instead of rolling back and returning
`ErrNetworkStopping`, so the claim as stated is false. -/
theorem claim7_counterexample :
    Ev.pauseNode ∈ (PlaySafe c7block).trace ∧
    (PlaySafe c7block).err = some Err.emptyBlock ∧
    Ev.rollbackOuter ∉ (PlaySafe c7block).trace := by
  decide

/-- C8 (counterexample): the grouper's sweep can pick up a transaction in a
later pass than a transaction that follows it in the block: on
`[c8t1, c8t2, c8t3]` (accounts {1,2}, {3,4}, {1,3}) the single produced
group is `[c8t1, c8t3, c8t2]`, which is not an order-preserving subsequence
of the input, so within-group order preservation is false. -/
theorem claim8_counterexample :
    groupUtxoTxs [c8t1, c8t2, c8t3] = [(1, [c8t1, c8t3, c8t2])] ∧
    ¬ (∀ p ∈ groupUtxoTxs [c8t1, c8t2, c8t3],
        sublistB p.2 [c8t1, c8t2, c8t3] = true) := by
  have hmap : groupUtxoTxs [c8t1, c8t2, c8t3] = [(1, [c8t1, c8t3, c8t2])] := by
    decide
  refine ⟨hmap, ?_⟩
  intro h
  have hg := h (1, [c8t1, c8t3, c8t2]) (by rw [hmap]; simp)
  exact absurd hg (by decide)

/-- C8 (amended): each single pass of the grouper's sweep preserves input
order — it appends to the current group an order-preserving subsequence of
its remaining input and keeps the rest of the remaining input in order; the
counterexample shows that order across different passes of the same group is
not preserved. -/
theorem claim8_amended (accts : Tx → List Int) (wa : List Int)
    (group txs : List Tx) :
    ∃ added kept, (onePass accts wa group txs).2.1 = group ++ added ∧
      (onePass accts wa group txs).2.2 = kept ∧
      added.Sublist txs ∧ kept.Sublist txs :=
  onePass_shape accts wa group txs

/-- C6: if `ProcessTxs` succeeds in generation mode with an empty accepted
set, `PlaySafe` commits the outer transaction, returns `ErrEmptyBlock`, and
dispatches no notification. -/
theorem claim6 (b : Block) (hst : b.startTxErr = none)
    (hpe : (ProcessTxs b).err = none) (hgen : b.genBlock = true)
    (hfd : (ProcessTxs b).txFullData = []) (hc : b.commitErr = none) :
    (PlaySafe b).err = some Err.emptyBlock ∧
    (PlaySafe b).trace = (ProcessTxs b).st.trace ++ [Ev.commitOuter] ∧
    (PlaySafe b).sent = [] := by
  simp [PlaySafe, hst, hpe, hgen, hfd, hc]

/-- C9: no notification is dispatched unless the outer commit succeeded: if
`ProcessTxs` fails, or `InsertIntoBlockchain` fails, or `Commit` fails,
`PlaySafe` sends nothing. -/
theorem claim9 (b : Block)
    (h : (ProcessTxs b).err ≠ none ∨ b.insertChainErr ≠ none ∨
      b.commitErr ≠ none) :
    (PlaySafe b).sent = [] := by
  simp only [PlaySafe]
  cases hst : b.startTxErr with
  | some m => rfl
  | none =>
    cases hpe : (ProcessTxs b).err with
    | some e =>
      dsimp only
      split
      · rfl
      · rfl
    | none =>
      dsimp only
      split
      · rfl
      · cases hic : b.insertChainErr with
        | some m => rfl
        | none =>
          cases hcc : b.commitErr with
          | some m => rfl
          | none =>
            exfalso
            rcases h with h | h | h
            · exact h hpe
            · exact h hic
            · exact h hcc

/-- C10: in the empty-generation rejection loop, a failing
`MarkTransactionBad` makes `PlaySafe` return the marking error instead of
the original processing error, and the transactions after the failing one
are neither banned nor marked bad (the loop trace is exactly that of the
list truncated at the failing transaction). -/
theorem claim10 (b : Block) (e0 : Err) (pre : List Tx) (t : Tx)
    (rest : List Tx) (m : String)
    (hst : b.startTxErr = none) (hpe : (ProcessTxs b).err = some e0)
    (hgen : b.genBlock = true) (hfd : (ProcessTxs b).txFullData = [])
    (htx : b.transactions = pre ++ t :: rest)
    (hpre : ∀ u ∈ pre, u.markBadErr = none)
    (hsc : t.isSC = false) (hm : t.markBadErr = some m) :
    (PlaySafe b).err = some (Err.msg m false) ∧
    (PlaySafe b).trace =
      (banPass e0 (pre ++ [t]) []
        ((ProcessTxs b).st.trace ++ [Ev.rollbackOuter])).1 := by
  have hstop := banPass_stops e0 pre t rest
    ((ProcessTxs b).st.trace ++ [Ev.rollbackOuter]) hpre
    (by rw [hsc]; simp) m hm
  simp only [PlaySafe, hst, hpe]
  rw [if_pos ⟨hgen, hfd⟩, htx, hstop.1]
  constructor
  · have h2 := hstop.2
    rw [hstop.1] at h2
    exact h2
  · rfl

/-- C4 (amended): in the empty-generation rejection loop, each distinct
smart-contract sender is banned exactly once (at its first smart-contract
transaction), and that ban-triggering transaction is skipped by the
`continue`, so it is not marked bad; every other transaction is marked bad
exactly once with the processing error's text. -/
theorem claim4_amended (e : Err) (txs : List Tx)
    (hmb : ∀ u ∈ txs, u.markBadErr = none)
    (hnd : (txs.map Tx.hash).Nodup) :
    (∀ k : Int, countEv (Ev.banKey k) (banPass e txs [] []).1 =
        if hasSCSender txs k = true then 1 else 0) ∧
    (∀ pre t post, txs = pre ++ t :: post →
      countEv (Ev.markBad t.hash e.errorString) (banPass e txs [] []).1 =
        if t.isSC = true ∧ hasSCSender pre t.keyID = false then 0 else 1) := by
  constructor
  · intro k
    rw [banPass_count_ban e txs [] hmb k]
    simp
  · intro pre t post htx
    subst htx
    have hmb_pre : ∀ u ∈ pre, u.markBadErr = none :=
      fun u hu => hmb u (by simp [hu])
    have hmb_tpost : ∀ u ∈ t :: post, u.markBadErr = none :=
      fun u hu => hmb u (by simp [hu])
    have hmb_post : ∀ u ∈ post, u.markBadErr = none :=
      fun u hu => hmb_tpost u (by simp [hu])
    have hnd' : (pre.map Tx.hash ++ t.hash :: post.map Tx.hash).Nodup := by
      rw [List.map_append, List.map_cons] at hnd
      exact hnd
    have hpre_hash : ∀ u ∈ pre, u.hash ≠ t.hash := by
      intro u hu hcontra
      have h1 : u.hash ∈ pre.map Tx.hash := List.mem_map_of_mem Tx.hash hu
      have h2 := (List.nodup_append.mp hnd').2.2
      exact h2 h1 (by rw [hcontra]; simp)
    have hpost_hash : ∀ u ∈ post, u.hash ≠ t.hash := by
      intro u hu hcontra
      have h2 := (List.nodup_append.mp hnd').2.1
      rw [List.nodup_cons] at h2
      exact h2.1 (hcontra ▸ List.mem_map_of_mem Tx.hash hu)
    have hK : t.keyID ∈ banKAfter [] pre ↔ hasSCSender pre t.keyID = true := by
      rw [banKAfter_mem]
      simp
    rw [banPass_append e pre (t :: post) [] [] hmb_pre, banPass_shift,
      countEv_append,
      banPass_count_mark_zero e pre [] hmb_pre t.hash hpre_hash]
    by_cases hbt : ¬t.keyID ∈ banKAfter [] pre ∧ t.isSC
    · simp only [banPass, if_pos hbt]
      rw [banPass_shift, countEv_append,
        banPass_count_mark_zero e post _ hmb_post t.hash hpost_hash]
      have hc0 : countEv (Ev.markBad t.hash e.errorString)
          ([] ++ [Ev.banKey t.keyID]) = 0 := by
        simp [countEv]
      rw [hc0]
      have hcond : t.isSC = true ∧ hasSCSender pre t.keyID = false := by
        refine ⟨hbt.2, ?_⟩
        rw [Bool.eq_false_iff]
        intro hx
        exact hbt.1 (hK.mpr hx)
      rw [if_pos hcond]
    · have hmt : t.markBadErr = none := hmb_tpost t (by simp)
      simp only [banPass, if_neg hbt, hmt]
      rw [banPass_shift, countEv_append,
        banPass_count_mark_zero e post _ hmb_post t.hash hpost_hash]
      have hc1 : countEv (Ev.markBad t.hash e.errorString)
          ([] ++ [Ev.markBad t.hash e.errorString]) = 1 := by
        simp [countEv]
      rw [hc1]
      have hcond : ¬(t.isSC = true ∧ hasSCSender pre t.keyID = false) := by
        intro hx
        apply hbt
        refine ⟨?_, hx.1⟩
        intro hmem
        rw [hK, hx.2] at hmem
        cases hmem
      rw [if_neg hcond]

/-- C5: when `Play` fails with `ErrLimitStop` during serial execution: in
generation mode, if it hits the first transaction of the group the executor
returns the error; otherwise it breaks out of the loop — returning success
with the transactions accepted so far and without rolling anything but the
failing transaction's savepoint back and without marking it bad.  In
validation mode the error is returned as a hard failure. -/
theorem claim5 (pre rest : List Tx) (t : Tx) (st : ExecSt) (g : Option Err)
    (hpre : ∀ u ∈ pre, cleanOk u)
    (hsp : t.savepointErr = none) (hwo : t.withOptionErr = none)
    (hpl : t.playResult = some Err.limitStop) (hrb : t.rollbackSpErr = none)
    (hsu : t.sysUpdate = false) :
    (pre = [] → (serialExecuteTxs true (pre ++ t :: rest) st g).2.2 =
      some Err.limitStop) ∧
    (pre ≠ [] →
      (serialExecuteTxs true (pre ++ t :: rest) st g).2.2 = none ∧
      (serialExecuteTxs true (pre ++ t :: rest) st g).1.processedTx =
        st.processedTx ++ pre.map Tx.fullData ∧
      (serialExecuteTxs true (pre ++ t :: rest) st g).1.trace =
        st.trace ++ (pre.map fun u => Ev.savepoint u.hash) ++
          [Ev.savepoint t.hash, Ev.rollbackSavepoint t.hash]) ∧
    (serialExecuteTxs false (pre ++ t :: rest) st g).2.2 =
      some Err.limitStop := by
  refine ⟨?_, ?_, ?_⟩
  · intro hpre0
    subst hpre0
    simp only [List.nil_append, serialExecuteTxs, serialExecuteTxsLoop]
    rw [execTx_limit_gen 0 t st g hsp hwo hpl hrb]
    simp
  · intro hpre0
    unfold serialExecuteTxs
    rw [serialLoop_front true pre (t :: rest) 0 st g hpre]
    simp only [serialExecuteTxsLoop]
    rw [execTx_limit_gen (0 + pre.length) t (stExt st pre) g hsp hwo hpl hrb]
    have hne : ¬(0 + pre.length = 0) := by
      cases pre
      · exact absurd rfl hpre0
      · simp
    rw [if_neg hne]
    refine ⟨rfl, ?_, ?_⟩
    · simp [stExt]
    · simp [stExt, List.append_assoc]
  · unfold serialExecuteTxs
    rw [serialLoop_front false pre (t :: rest) 0 st g hpre]
    simp only [serialExecuteTxsLoop]
    obtain ⟨h1, h2⟩ :=
      execTx_limit_val (0 + pre.length) t (stExt st pre) g hsp hwo hpl hrb hsu
    rw [h1]

/-- C2: on a generation block `[tx_ok, tx_bad, tx_ok2]` of smart contracts
where only `tx_bad` fails with a non-fatal error, `PlaySafe` commits the
outer transaction, the accepted data is `[tx_ok, tx_ok2]`, the sender of
`tx_bad` is registered for banning and `tx_bad` is marked bad (with the
VM-time-limit normalisation applied to the message in generation mode), and
`AfterTxs.Txs` has exactly the two accepted entries. -/
theorem claim2 (e : Err) (hN : e ≠ Err.networkStopping)
    (hL : e ≠ Err.limitStop) :
    (PlaySafe (c2block e)).err = none ∧
    Ev.commitOuter ∈ (PlaySafe (c2block e)).trace ∧
    (ProcessTxs (c2block e)).txFullData = [101, 103] ∧
    Ev.banKey 20 ∈ (PlaySafe (c2block e)).trace ∧
    Ev.markBad 2 ((if e.containsVMSig = true then Err.vmTimeLimit
      else e).errorString) ∈ (PlaySafe (c2block e)).trace ∧
    (ProcessTxs (c2block e)).afterTxs = some [1, 3] := by
  by_cases hv : e.containsVMSig = true <;>
    simp [PlaySafe, ProcessTxs, processTxsBody, phaseSerial, classifyEvents,
      typeOrder, unmarshalEvents, ofType, parsedOk, c2block, mkBlock, c2tx1,
      c2tx2, c2tx3, mkTx, serialExecuteTxs, serialExecuteTxsLoop, execTx,
      runGroups, groupUtxoTxs, groupTransferSelfTxs, groupTxsF, initGroupSt,
      mapSet, hN, hL, hv]

/-- C7 (amended): when the transaction whose `Play` returns
`ErrNetworkStopping` is executed in the serial StopNetwork phase (where this
error arises: a stop-network transaction), the executor invokes
`PauseNodeActivity` and returns the error immediately — no savepoint
rollback, no mark-bad, no further transaction of the group — and `PlaySafe`
rolls the outer transaction back and returns `ErrNetworkStopping`, whatever
other transactions the block contains; the counterexample shows the error is
discarded when it arises inside a parallel group phase instead. -/
theorem claim7_amended (all pre : List Tx) (t : Tx)
    (hsnl : ofType (mkBlock false all) .stopNetwork = pre ++ [t])
    (hun : ∀ u ∈ all, u.unmarshalErr = none)
    (hpre : ∀ u ∈ pre, cleanOk u)
    (hsp : t.savepointErr = none) (hwo : t.withOptionErr = none)
    (hpl : t.playResult = some Err.networkStopping) :
    (PlaySafe (mkBlock false all)).err = some Err.networkStopping ∧
    (PlaySafe (mkBlock false all)).trace =
      (pre.map fun u => Ev.savepoint u.hash) ++
        [Ev.savepoint t.hash, Ev.pauseNode, Ev.rollbackOuter] := by
  have hb1 : (mkBlock false all).genBlock = false := rfl
  have hb2 : (mkBlock false all).isGenesis = false := rfl
  have hb3 : (mkBlock false all).sqldml = false := rfl
  have hb4 : (mkBlock false all).getTxOutputsErr = none := rfl
  have hb5 : (mkBlock false all).sysUpdate = false := rfl
  have hb6 : (mkBlock false all).afterPlayErr = none := rfl
  have hb7 : (mkBlock false all).startTxErr = none := rfl
  have hun2 : ∀ u ∈ pre ++ [t], u.unmarshalErr = none := by
    intro u hu
    rw [← hsnl] at hu
    simp only [ofType] at hu
    exact hun u (List.mem_of_mem_filter hu)
  have hsn : parsedOk (ofType (mkBlock false all) .stopNetwork) =
      pre ++ [t] := by
    rw [hsnl]
    exact parsedOk_self _ hun2
  have hcls : classifyEvents (mkBlock false all) = [] :=
    classifyEvents_none _ hun
  have hexec : serialExecuteTxs false (pre ++ [t]) emptyExecSt none =
      ({ trace := (pre.map fun u => Ev.savepoint u.hash) ++
            [Ev.savepoint t.hash, Ev.pauseNode],
         aftersTxs := pre.map Tx.hash,
         processedTx := pre.map Tx.fullData,
         notifications := [], sysUpdate := false }, none,
        some Err.networkStopping) := by
    unfold serialExecuteTxs
    rw [serialLoop_front false pre [t] 0 emptyExecSt none hpre]
    simp only [serialExecuteTxsLoop]
    rw [execTx_net false (0 + pre.length) t (stExt emptyExecSt pre) none
      hsp hwo hpl]
    simp [stExt, emptyExecSt]
  have hphase : phaseSerial false
      (parsedOk (ofType (mkBlock false all) .stopNetwork))
      emptyExecSt =
      ({ trace := (pre.map fun u => Ev.savepoint u.hash) ++
            [Ev.savepoint t.hash, Ev.pauseNode],
         aftersTxs := pre.map Tx.hash,
         processedTx := pre.map Tx.fullData,
         notifications := [], sysUpdate := false },
        some Err.networkStopping) := by
    rw [hsn]
    unfold phaseSerial
    rw [if_neg (by simp)]
    rw [hexec]
  have hbody : processTxsBody (mkBlock false all) emptyExecSt =
      ({ trace := (pre.map fun u => Ev.savepoint u.hash) ++
            [Ev.savepoint t.hash, Ev.pauseNode],
         aftersTxs := pre.map Tx.hash,
         processedTx := pre.map Tx.fullData,
         notifications := [], sysUpdate := false },
        some Err.networkStopping) := by
    unfold processTxsBody
    rw [if_neg (by simp [hb1, hb2, hb3])]
    simp only [hb4, hb1, hphase]
    rw [if_pos (by simp)]
  have hst0 : ExecSt.mk [] [] [] [] false = emptyExecSt := rfl
  have hproc : ProcessTxs (mkBlock false all) =
      { st :=
          { trace := (pre.map fun u => Ev.savepoint u.hash) ++
              [Ev.savepoint t.hash, Ev.pauseNode],
            aftersTxs := pre.map Tx.hash,
            processedTx := pre.map Tx.fullData,
            notifications := [], sysUpdate := false },
        afterTxs := none, txFullData := [],
        err := some Err.networkStopping } := by
    unfold ProcessTxs
    simp only [hcls, hb5, hb1, hb2, hb6]
    rw [hst0, hbody]
    simp
  simp only [PlaySafe, hb7, hproc]
  rw [if_neg (by simp [hb1])]
  constructor
  · rfl
  · simp

/-! ## Witnesses -/

/-- Witness for C2 at the concrete error `Err.msg "boom" false`. -/
theorem claim2_witness :
    (PlaySafe (c2block (Err.msg "boom" false))).err = none ∧
    Ev.commitOuter ∈ (PlaySafe (c2block (Err.msg "boom" false))).trace ∧
    (ProcessTxs (c2block (Err.msg "boom" false))).txFullData = [101, 103] ∧
    Ev.banKey 20 ∈ (PlaySafe (c2block (Err.msg "boom" false))).trace ∧
    Ev.markBad 2 ((if (Err.msg "boom" false).containsVMSig = true then
      Err.vmTimeLimit else Err.msg "boom" false).errorString) ∈
      (PlaySafe (c2block (Err.msg "boom" false))).trace ∧
    (ProcessTxs (c2block (Err.msg "boom" false))).afterTxs = some [1, 3] :=
  claim2 (Err.msg "boom" false) (by decide) (by decide)

/-- Witness for C4 (amended) on a three-transaction input with a repeated
smart-contract sender. -/
theorem claim4_amended_witness :
    (∀ k : Int, countEv (Ev.banKey k)
        (banPass (Err.msg "x" false) [c4w1, c4w2, c4w3] [] []).1 =
      if hasSCSender [c4w1, c4w2, c4w3] k = true then 1 else 0) ∧
    (∀ pre t post, ([c4w1, c4w2, c4w3] : List Tx) = pre ++ t :: post →
      countEv (Ev.markBad t.hash (Err.msg "x" false).errorString)
          (banPass (Err.msg "x" false) [c4w1, c4w2, c4w3] [] []).1 =
        if t.isSC = true ∧ hasSCSender pre t.keyID = false then 0 else 1) :=
  claim4_amended (Err.msg "x" false) [c4w1, c4w2, c4w3] (by decide) (by decide)

/-- Witness for C5 on the group `[c5pre, c5limit, c5rest]`. -/
theorem claim5_witness :
    (([c5pre] : List Tx) = [] →
      (serialExecuteTxs true ([c5pre] ++ c5limit :: [c5rest])
        emptyExecSt none).2.2 = some Err.limitStop) ∧
    (([c5pre] : List Tx) ≠ [] →
      (serialExecuteTxs true ([c5pre] ++ c5limit :: [c5rest])
        emptyExecSt none).2.2 = none ∧
      (serialExecuteTxs true ([c5pre] ++ c5limit :: [c5rest])
        emptyExecSt none).1.processedTx =
        emptyExecSt.processedTx ++ ([c5pre] : List Tx).map Tx.fullData ∧
      (serialExecuteTxs true ([c5pre] ++ c5limit :: [c5rest])
        emptyExecSt none).1.trace =
        emptyExecSt.trace ++
          (([c5pre] : List Tx).map fun u => Ev.savepoint u.hash) ++
          [Ev.savepoint c5limit.hash, Ev.rollbackSavepoint c5limit.hash]) ∧
    (serialExecuteTxs false ([c5pre] ++ c5limit :: [c5rest])
      emptyExecSt none).2.2 = some Err.limitStop :=
  claim5 [c5pre] [c5rest] c5limit emptyExecSt none (by decide) (by decide)
    (by decide) (by decide) (by decide) (by decide)

/-- Witness for C6 on an empty generation block. -/
theorem claim6_witness :
    (PlaySafe c6block).err = some Err.emptyBlock ∧
    (PlaySafe c6block).trace =
      (ProcessTxs c6block).st.trace ++ [Ev.commitOuter] ∧
    (PlaySafe c6block).sent = [] :=
  claim6 c6block (by decide) (by decide) (by decide) (by decide) (by decide)

/-- Witness for C7 (amended) on a block with a two-transaction StopNetwork
phase followed by a Delay transaction that is never reached. -/
theorem claim7_amended_witness :
    (PlaySafe (mkBlock false [c7pre, c7stop, c7extra])).err =
      some Err.networkStopping ∧
    (PlaySafe (mkBlock false [c7pre, c7stop, c7extra])).trace =
      (([c7pre] : List Tx).map fun u => Ev.savepoint u.hash) ++
        [Ev.savepoint c7stop.hash, Ev.pauseNode, Ev.rollbackOuter] :=
  claim7_amended [c7pre, c7stop, c7extra] [c7pre] c7stop (by decide)
    (by decide) (by decide) (by decide) (by decide) (by decide)

/-- Witness for C9 on a block whose outer commit fails. -/
theorem claim9_witness : (PlaySafe c9block).sent = [] :=
  claim9 c9block (by decide)

/-- Witness for C10 on a block whose outputs preload fails and whose second
transaction's `MarkTransactionBad` fails. -/
theorem claim10_witness :
    (PlaySafe c10block).err = some (Err.msg "mark failed" false) ∧
    (PlaySafe c10block).trace =
      (banPass (Err.msg "db" false) ([c1ok] ++ [c10t]) []
        ((ProcessTxs c10block).st.trace ++ [Ev.rollbackOuter])).1 :=
  claim10 c10block (Err.msg "db" false) [c1ok] c10t [] "mark failed"
    (by decide) (by decide) (by decide) (by decide) (by decide) (by decide)
    (by decide) (by decide)

end IbaxBlock
